import Mathlib

/-
Shallow embedding of the `migrate` Go package (noonat/migrate).

The package applies an ordered list of schema migrations to a SQL database,
tracking applied versions in a `schema_versions` table through an `Adapter`.
We embed the reference `TableAdapter` semantics: the version store is the
ordered list of rows of `schema_versions` (in insertion order; the
`created_at` timestamp column is modelled by insertion order, assuming a
monotone clock, which is the reading `ORDER BY created_at DESC LIMIT 1`
relies on).  Database-level failures of the prepare and query steps are
injected as explicit `Option String` parameters; the in-memory list models a
database whose INSERT statements succeed.  Migration bodies are opaque
actions: each is modelled by its outcome (`none` = success, `some e` =
failure with cause `e`), and the engine's observable behaviour is the pair
(final database state, returned error), where the state also carries the
trace of migration bodies that were executed.
-/

namespace Migrate

/-- One row of the `schema_versions` table, as inserted by
`TableAdapter.InsertSchemaVersion (ctx, db, version, upgrade, comment)`:
`INSERT INTO schema_versions (version, upgrade, comment) VALUES (...)`. -/
structure VersionRecord where
  version : Nat
  upgrade : Bool
  comment : String
  deriving DecidableEq, Repr

/-- An observable execution of a migration body: `ranUp v` means the `Up`
function of the migration for version `v` was invoked, `ranDown v` its
`Down` function. -/
inductive Event where
  | ranUp : Nat → Event
  | ranDown : Nat → Event
  deriving DecidableEq, Repr

/-- Database state: the rows of `schema_versions` in insertion order, plus
the trace of migration bodies executed so far. -/
structure DBState where
  store : List VersionRecord
  trace : List Event
  deriving DecidableEq, Repr

/-- A migration step (`Migration` in the source): a comment and the two
bodies `Up` and `Down`, each modelled by its outcome for this run
(`none` = the body succeeds, `some e` = the body fails with cause `e`). -/
structure Migration where
  comment : String
  up : Option String
  down : Option String
  deriving DecidableEq, Repr

/-- `TableAdapter.QuerySchemaVersion` runs
`SELECT version FROM schema_versions ORDER BY created_at DESC LIMIT 1`:
the version of the most recently inserted row.  `row.Scan` yields
`sql.ErrNoRows` on an empty table, which the source maps to `(0, nil)`. -/
def currentVersion (store : List VersionRecord) : Nat :=
  match store.getLast? with
  | none => 0
  | some r => r.version

/-- `TableAdapter.QuerySchemaVersion` including the failure path: the
argument is the database's answer to the SELECT (either a failure, or the
table contents in insertion order).  On `sql.ErrNoRows` (empty table) it
returns `(0, nil)`; on any other error it returns the error; otherwise the
most recent row's version. -/
def QuerySchemaVersion : Except String (List VersionRecord) → Except String Nat
  | .error e => .error e
  | .ok store => .ok (currentVersion store)

/-- `TableAdapter.InsertSchemaVersion`: appends one row to
`schema_versions` (always an INSERT, never UPDATE or DELETE). -/
def InsertSchemaVersion (store : List VersionRecord) (version : Nat)
    (upgrade : Bool) (comment : String) : List VersionRecord :=
  store ++ [⟨version, upgrade, comment⟩]

/-- `TableAdapter.PrepareSchemaVersions` issues
`CREATE TABLE IF NOT EXISTS schema_versions ( version INT NOT NULL PRIMARY KEY, created_at TIMESTAMP NOT NULL DEFAULT CURRENT_TIMESTAMP, upgrade TINYINT NOT NULL, comment TEXT NOT NULL )`.
The declared PRIMARY KEY on `version` means the database accepts a set of
rows only if their `version` values are pairwise distinct; this predicate
expresses that constraint on a store. -/
def versionPrimaryKey (store : List VersionRecord) : Prop :=
  (store.map VersionRecord.version).Nodup

instance (store : List VersionRecord) : Decidable (versionPrimaryKey store) :=
  List.nodupDecidable _

/-- The error message of a failed migration body:
`fmt.Errorf("error upgrading database to version %d: %s", version, err)`.
The source uses this exact format in both `UpToVersion` and
`DownToVersion` (the downgrade path's message also says "upgrading"). -/
def bodyErrMsg (version : Nat) (e : String) : String :=
  s!"error upgrading database to version {version}: {e}"

/-- The error message of a failed statement in `ExecQueries`:
`fmt.Errorf("error with query %d: %s", i, err)`. -/
def execErrMsg (i : Nat) (e : String) : String :=
  s!"error with query {i}: {e}"

/-- The body of the `for i, m := range migrations` loop of `UpToVersion`,
over the list of `(version, migration)` pairs with `version = i + 1`
(ascending).  `continue` when `version <= currentVersion`, `break` (return
nil) when `version > targetVersion`, otherwise run `m.Up` (recorded in the
trace); on failure return the formatted error, on success insert the row
`(version, true, m.Comment)` and continue. -/
def upLoop (targetVersion cur : Nat) :
    List (Nat × Migration) → DBState → DBState × Option String
  | [], s => (s, none)
  | (version, m) :: rest, s =>
    if version ≤ cur then upLoop targetVersion cur rest s
    else if version > targetVersion then (s, none)
    else
      let s1 : DBState := { s with trace := s.trace ++ [Event.ranUp version] }
      match m.up with
      | some e => (s1, some (bodyErrMsg version e))
      | none =>
        upLoop targetVersion cur rest
          { s1 with store := InsertSchemaVersion s1.store version true m.comment }

/-- The `(version, migration)` pairs visited by `UpToVersion`'s loop, in
order: migration at 0-based index `i` is paired with version `i + 1`. -/
def upPairs (migrations : List Migration) : List (Nat × Migration) :=
  (List.range' 1 migrations.length).zip migrations

/-- `UpToVersion(ctx, db, adapter, targetVersion, migrations)`:
prepare the schema-versions store (failure injected as `prepErr`), query the
current version (failure injected as `queryErr`), then walk the migrations
forward.  Returns the final database state together with the returned
error (`none` = nil). -/
def UpToVersion (prepErr queryErr : Option String) (targetVersion : Nat)
    (migrations : List Migration) (s : DBState) : DBState × Option String :=
  match prepErr with
  | some e => (s, some s!"error preparing schema versions: {e}")
  | none =>
    match queryErr with
    | some e => (s, some s!"error querying current schema version: {e}")
    | none => upLoop targetVersion (currentVersion s.store) (upPairs migrations) s

/-- `Up(ctx, db, adapter, migrations)`: upgrade to the latest migration,
`UpToVersion(ctx, db, adapter, len(migrations), migrations)`. -/
def Up (prepErr queryErr : Option String) (migrations : List Migration)
    (s : DBState) : DBState × Option String :=
  UpToVersion prepErr queryErr migrations.length migrations s

/-- The body of the `for i := len(migrations) - 1; i >= 0; i--` loop of
`DownToVersion`, over `(version, migration)` pairs with `version = i + 1`
(descending).  `continue` when `version > currentVersion`, `break` when
`version <= targetVersion`, otherwise run `m.Down` (recorded in the trace);
on failure return the formatted error (the source's message says
"upgrading" here), on success insert `(version, false, m.Comment)`. -/
def downLoop (targetVersion cur : Nat) :
    List (Nat × Migration) → DBState → DBState × Option String
  | [], s => (s, none)
  | (version, m) :: rest, s =>
    if version > cur then downLoop targetVersion cur rest s
    else if version ≤ targetVersion then (s, none)
    else
      let s1 : DBState := { s with trace := s.trace ++ [Event.ranDown version] }
      match m.down with
      | some e => (s1, some (bodyErrMsg version e))
      | none =>
        downLoop targetVersion cur rest
          { s1 with store := InsertSchemaVersion s1.store version false m.comment }

/-- The `(version, migration)` pairs visited by `DownToVersion`'s loop:
the same pairs as the upgrade loop, in reverse (descending) order. -/
def downPairs (migrations : List Migration) : List (Nat × Migration) :=
  (upPairs migrations).reverse

/-- `DownToVersion(ctx, db, adapter, targetVersion, migrations)`: prepare
the store, query the current version, then walk the migrations backward. -/
def DownToVersion (prepErr queryErr : Option String) (targetVersion : Nat)
    (migrations : List Migration) (s : DBState) : DBState × Option String :=
  match prepErr with
  | some e => (s, some s!"error preparing schema versions: {e}")
  | none =>
    match queryErr with
    | some e => (s, some s!"error querying current schema version: {e}")
    | none => downLoop targetVersion (currentVersion s.store) (downPairs migrations) s

/-- The loop inside the function returned by `ExecQueries`: executes each
statement in order against the database (`exec i q` is the database's
outcome for issuing statement `q` as the `i`-th call: `none` = success).
Returns the list of statements actually issued, paired with their 0-based
indices, and the returned error. -/
def execQueriesFrom (exec : Nat → String → Option String) :
    Nat → List String → List (Nat × String) × Option String
  | _, [] => ([], none)
  | i, q :: qs =>
    match exec i q with
    | some e => ([(i, q)], some (execErrMsg i e))
    | none =>
      let r := execQueriesFrom exec (i + 1) qs
      ((i, q) :: r.1, r.2)

/-- `ExecQueries(queries)` returns a migration function running each query
in order; this is that function's behaviour against a database `exec`. -/
def ExecQueries (queries : List String) (exec : Nat → String → Option String) :
    List (Nat × String) × Option String :=
  execQueriesFrom exec 0 queries

/-- The rows inserted when migrations `ms` are applied upward starting at
0-based index `i` (versions `i+1, i+2, ...`). -/
def upRecs (i : Nat) (ms : List Migration) : List VersionRecord :=
  ((List.range' (i + 1) ms.length).zip ms).map fun p => ⟨p.1, true, p.2.comment⟩

/-- A list of statements paired with their 0-based indices, starting at
`i`; the order in which `ExecQueries` issues them. -/
def withIdx : Nat → List String → List (Nat × String)
  | _, [] => []
  | i, q :: qs => (i, q) :: withIdx (i + 1) qs

theorem upRecs_cons (i : Nat) (m : Migration) (ms : List Migration) :
    upRecs i (m :: ms) = ⟨i + 1, true, m.comment⟩ :: upRecs (i + 1) ms := by
  simp [upRecs, List.range'_succ]

theorem currentVersion_concat (l : List VersionRecord) (r : VersionRecord) :
    currentVersion (l ++ [r]) = r.version := by
  simp [currentVersion, List.getLast?_concat]

theorem currentVersion_cons_cons (a b : VersionRecord) (l : List VersionRecord) :
    currentVersion (a :: b :: l) = currentVersion (b :: l) := by
  simp [currentVersion, List.getLast?_cons_cons]

theorem currentVersion_upRecs (ms : List Migration) :
    ∀ i : Nat, currentVersion (upRecs i ms) =
      if ms.length = 0 then 0 else i + ms.length := by
  induction ms with
  | nil => intro i; simp [upRecs, currentVersion]
  | cons m tl ih =>
    intro i
    cases tl with
    | nil => simp [upRecs_cons, upRecs, currentVersion]
    | cons t tl' =>
      have h := ih (i + 1)
      rw [upRecs_cons, upRecs_cons, currentVersion_cons_cons, ← upRecs_cons, h]
      simp only [List.length_cons, Nat.succ_ne_zero, if_false]
      omega

/-- If every pair in sight is either already applied (`version ≤ cur`) or
beyond the target (`targetVersion < version`), the upgrade loop does
nothing and succeeds. -/
theorem upLoop_noop (T cur : Nat) :
    ∀ (pairs : List (Nat × Migration)) (s : DBState),
    (∀ p ∈ pairs, p.1 ≤ cur ∨ T < p.1) → upLoop T cur pairs s = (s, none) := by
  intro pairs
  induction pairs with
  | nil => intro s _; rfl
  | cons p rest ih =>
    intro s h
    obtain ⟨v, m⟩ := p
    rcases h (v, m) (by simp) with hle | hgt
    · simp [upLoop, hle, ih s (fun q hq => h q (by simp [hq]))]
    · have : ¬ v ≤ cur ∨ v ≤ cur := by omega
      by_cases hvc : v ≤ cur
      · simp [upLoop, hvc, ih s (fun q hq => h q (by simp [hq]))]
      · simp [upLoop, hvc, hgt]

/-- If every pair in sight is either never applied (`cur < version`) or at
or below the target (`version ≤ targetVersion`), the downgrade loop does
nothing and succeeds. -/
theorem downLoop_noop (T cur : Nat) :
    ∀ (pairs : List (Nat × Migration)) (s : DBState),
    (∀ p ∈ pairs, cur < p.1 ∨ p.1 ≤ T) → downLoop T cur pairs s = (s, none) := by
  intro pairs
  induction pairs with
  | nil => intro s _; rfl
  | cons p rest ih =>
    intro s h
    obtain ⟨v, m⟩ := p
    by_cases hvc : v > cur
    · simp [downLoop, hvc, ih s (fun q hq => h q (by simp [hq]))]
    · rcases h (v, m) (by simp) with hgt | hle
      · omega
      · simp [downLoop, hvc, hle]

/-- C5: `Up(ctx, db, adapter, migrations)` is exactly
`UpToVersion(ctx, db, adapter, len(migrations), migrations)`: same effects
on the database state and the same returned result, for every adapter
behaviour, migration list and starting state. -/
theorem c5_up_is_upToVersion_latest (prepErr queryErr : Option String)
    (migrations : List Migration) (s : DBState) :
    Up prepErr queryErr migrations s =
      UpToVersion prepErr queryErr migrations.length migrations s := rfl

/-- C8: edge policy.  (1) Upgrading with target equal to the current
version is a no-op success: no body runs, no row is written.  (2) So is
downgrading with target equal to the current version.  (3) With an empty
migration list on a fresh database, `Up` and `DownToVersion 0` both succeed
without writing any row, and the current version stays 0. -/
theorem c8_edge_policy :
    (∀ (migrations : List Migration) (s : DBState),
      UpToVersion none none (currentVersion s.store) migrations s = (s, none)) ∧
    (∀ (migrations : List Migration) (s : DBState),
      DownToVersion none none (currentVersion s.store) migrations s = (s, none)) ∧
    (Up none none [] ⟨[], []⟩ = (⟨[], []⟩, none) ∧
      DownToVersion none none 0 [] ⟨[], []⟩ = (⟨[], []⟩, none) ∧
      currentVersion ([] : List VersionRecord) = 0) := by
  refine ⟨?_, ?_, by decide, by decide, rfl⟩
  · intro migrations s
    exact upLoop_noop _ _ _ s fun p _ => le_or_lt p.1 (currentVersion s.store)
  · intro migrations s
    exact downLoop_noop _ _ _ s fun p _ =>
      (Nat.lt_or_ge (currentVersion s.store) p.1).imp id (fun h => h)

/-- C10: for any target at or above the current version (not only equal to
it), `DownToVersion` returns success, executes no downgrade body, writes no
row, and leaves the state — store and trace — untouched. -/
theorem c10_down_at_or_above_current_noop (T : Nat) (migrations : List Migration)
    (s : DBState) (h : currentVersion s.store ≤ T) :
    DownToVersion none none T migrations s = (s, none) := by
  exact downLoop_noop _ _ _ s fun p _ =>
    (Nat.lt_or_ge (currentVersion s.store) p.1).imp id (fun hp => Nat.le_trans hp h)

/-- Witness for C10 at a concrete input: one migration, current version 0
(empty store), target 1. -/
theorem c10_witness :
    currentVersion (DBState.mk [] []).store ≤ 1 ∧
    DownToVersion none none 1 [⟨"c", none, none⟩] ⟨[], []⟩ = (⟨[], []⟩, none) :=
  ⟨by decide, c10_down_at_or_above_current_noop 1 [⟨"c", none, none⟩] ⟨[], []⟩ (by decide)⟩

/-- C2 (divergence, concrete run): three migrations, database at version 3,
`DownToVersion 1`.  The downgrade bodies run for versions 3 then 2, in
descending order, as the claim says — but each downgrade inserts a row
carrying the version it just undid, so the most recent row is
`(2, down)` and the version read back from the store is 2, not the target
1. -/
theorem c2_down_leaves_current_at_target_plus_one :
    currentVersion [⟨1, true, "c1"⟩, ⟨2, true, "c2"⟩, ⟨3, true, "c3"⟩] = 3 ∧
    DownToVersion none none 1
        [⟨"c1", none, none⟩, ⟨"c2", none, none⟩, ⟨"c3", none, none⟩]
        ⟨[⟨1, true, "c1"⟩, ⟨2, true, "c2"⟩, ⟨3, true, "c3"⟩], []⟩ =
      (⟨[⟨1, true, "c1"⟩, ⟨2, true, "c2"⟩, ⟨3, true, "c3"⟩,
         ⟨3, false, "c3"⟩, ⟨2, false, "c2"⟩],
        [Event.ranDown 3, Event.ranDown 2]⟩, none) ∧
    currentVersion [⟨1, true, "c1"⟩, ⟨2, true, "c2"⟩, ⟨3, true, "c3"⟩,
        ⟨3, false, "c3"⟩, ⟨2, false, "c2"⟩] = 2 := by
  refine ⟨rfl, ?_, rfl⟩
  decide

/-- C9 (divergence, concrete run): upgrading one migration and then
downgrading it appends two rows that both carry version 1, but the
`schema_versions` table created by `PrepareSchemaVersions` declares
`version` as its PRIMARY KEY, so a conforming database rejects the second
insert: the store the engine tries to build violates the declared key. -/
theorem c9_version_primary_key_rejects_cycle :
    UpToVersion none none 1 [⟨"c", none, none⟩] ⟨[], []⟩ =
      (⟨[⟨1, true, "c"⟩], [Event.ranUp 1]⟩, none) ∧
    DownToVersion none none 0 [⟨"c", none, none⟩] ⟨[⟨1, true, "c"⟩], [Event.ranUp 1]⟩ =
      (⟨[⟨1, true, "c"⟩, ⟨1, false, "c"⟩], [Event.ranUp 1, Event.ranDown 1]⟩, none) ∧
    ¬ versionPrimaryKey [⟨1, true, "c"⟩, ⟨1, false, "c"⟩] := by
  refine ⟨by decide, by decide, ?_⟩
  decide

/-- C7: `TableAdapter.QuerySchemaVersion` returns the version of the most
recently inserted row; on an empty table (`sql.ErrNoRows`) it returns 0
with no error; any other query failure is returned as an error. -/
theorem c7_querySchemaVersion (store : List VersionRecord) (r : VersionRecord)
    (h : store.getLast? = some r) :
    QuerySchemaVersion (.ok store) = .ok r.version ∧
    QuerySchemaVersion (.ok []) = .ok 0 ∧
    (∀ e : String, QuerySchemaVersion (.error e) = .error e) := by
  refine ⟨?_, rfl, fun e => rfl⟩
  simp [QuerySchemaVersion, currentVersion, h]

/-- Witness for C7 at a concrete store of two rows. -/
theorem c7_witness :
    [(⟨1, true, "a"⟩ : VersionRecord), ⟨2, false, "b"⟩].getLast? = some ⟨2, false, "b"⟩ ∧
    QuerySchemaVersion (.ok [⟨1, true, "a"⟩, ⟨2, false, "b"⟩]) = .ok 2 :=
  ⟨by decide,
    (c7_querySchemaVersion [⟨1, true, "a"⟩, ⟨2, false, "b"⟩] ⟨2, false, "b"⟩ (by decide)).1⟩

theorem execQueriesFrom_all_ok (exec : Nat → String → Option String) :
    ∀ (qs : List String) (i : Nat), (∀ p ∈ withIdx i qs, exec p.1 p.2 = none) →
    execQueriesFrom exec i qs = (withIdx i qs, none) := by
  intro qs
  induction qs with
  | nil => intro i _; rfl
  | cons q tl ih =>
    intro i h
    have hq : exec i q = none := h (i, q) (by simp [withIdx])
    simp [execQueriesFrom, hq, withIdx,
      ih (i + 1) (fun p hp => h p (by simp [withIdx, hp]))]

theorem execQueriesFrom_first_failure (exec : Nat → String → Option String)
    (qf : String) (e : String) :
    ∀ (qs1 qs2 : List String) (i : Nat),
    (∀ p ∈ withIdx i qs1, exec p.1 p.2 = none) →
    exec (i + qs1.length) qf = some e →
    execQueriesFrom exec i (qs1 ++ qf :: qs2) =
      (withIdx i qs1 ++ [(i + qs1.length, qf)],
        some (execErrMsg (i + qs1.length) e)) := by
  intro qs1
  induction qs1 with
  | nil =>
    intro qs2 i _ hf
    simp only [Nat.add_zero, List.length_nil] at hf
    simp [execQueriesFrom, withIdx, hf]
  | cons q tl ih =>
    intro qs2 i h hf
    have hq : exec i q = none := h (i, q) (by simp [withIdx])
    have hf' : exec ((i + 1) + tl.length) qf = some e := by
      have : (i + 1) + tl.length = i + (q :: tl).length := by simp; omega
      rw [this]; exact hf
    have htl : ∀ p ∈ withIdx (i + 1) tl, exec p.1 p.2 = none :=
      fun p hp => h p (by simp [withIdx, hp])
    have := ih qs2 (i + 1) htl hf'
    have hlen : (i + 1) + tl.length = i + (q :: tl).length := by simp; omega
    rw [hlen] at this
    simp [execQueriesFrom, hq, withIdx, this]

/-- C6: the function built by `ExecQueries(queries)` issues each statement
in order.  If every statement succeeds it issues all of them and returns
nil.  If a statement fails, it issues only the statements up to and
including the failing one (none after it) and returns an error carrying the
failing statement's 0-based index and the underlying cause. -/
theorem c6_execQueries (exec : Nat → String → Option String) :
    (∀ qs : List String, (∀ p ∈ withIdx 0 qs, exec p.1 p.2 = none) →
      ExecQueries qs exec = (withIdx 0 qs, none)) ∧
    (∀ (qs1 : List String) (qf : String) (qs2 : List String) (e : String),
      (∀ p ∈ withIdx 0 qs1, exec p.1 p.2 = none) →
      exec qs1.length qf = some e →
      ExecQueries (qs1 ++ qf :: qs2) exec =
        (withIdx 0 qs1 ++ [(qs1.length, qf)],
          some (execErrMsg qs1.length e))) := by
  constructor
  · intro qs h
    exact execQueriesFrom_all_ok exec qs 0 h
  · intro qs1 qf qs2 e h hf
    have hf0 : exec (0 + qs1.length) qf = some e := by simpa using hf
    have := execQueriesFrom_first_failure exec qf e qs1 qs2 0 h hf0
    simpa [ExecQueries] using this

/-- Witness for C6: the spec's scenario — two statements where the second
fails; the error names index 1 and the cause, and both statements (and
nothing else) were issued. -/
theorem c6_witness :
    (∀ p ∈ withIdx 0 ["CREATE TABLE a"],
      (fun i (_ : String) => if i = 1 then some "mock error" else none) p.1 p.2 = none) ∧
    (fun i (_ : String) => if i = 1 then some "mock error" else none)
        (["CREATE TABLE a"].length) "CREATE TABLE b" = some "mock error" ∧
    ExecQueries ["CREATE TABLE a", "CREATE TABLE b"]
        (fun i (_ : String) => if i = 1 then some "mock error" else none) =
      ([(0, "CREATE TABLE a"), (1, "CREATE TABLE b")],
        some "error with query 1: mock error") :=
  ⟨by decide, by decide, by
    have := (c6_execQueries
        (fun i (_ : String) => if i = 1 then some "mock error" else none)).2
        ["CREATE TABLE a"] "CREATE TABLE b" [] "mock error"
        (by decide) (by decide)
    simpa [withIdx] using this⟩

/-- Characterization of the upgrade loop from current version 0 when every
body succeeds: starting at 0-based index `i`, it executes the versions
`i+1 .. min targetVersion (i + |ms|)` in ascending order, appending one row
per executed version, and returns nil. -/
theorem upLoop_all_ok (T : Nat) :
    ∀ (ms : List Migration) (i : Nat) (s : DBState), (∀ m ∈ ms, m.up = none) →
    upLoop T 0 ((List.range' (i + 1) ms.length).zip ms) s =
      ({ store := s.store ++ upRecs i (ms.take (min T (i + ms.length) - i)),
         trace := s.trace ++
           (List.range' (i + 1) (min T (i + ms.length) - i)).map Event.ranUp },
        none) := by
  intro ms
  induction ms with
  | nil =>
    intro i s _
    have h0 : min T (i + 0) - i = 0 := by omega
    simp [upLoop, h0, upRecs]
  | cons m tl ih =>
    intro i s h
    rw [List.length_cons, List.range'_succ, List.zip_cons_cons]
    by_cases hT : i + 1 > T
    · have h0 : min T (i + (tl.length + 1)) - i = 0 := by omega
      simp [upLoop, hT, h0, upRecs]
    · have hle : i + 1 ≤ T := by omega
      have hup : m.up = none := h m (by simp)
      have hrec := ih (i + 1)
        ⟨s.store ++ [⟨i + 1, true, m.comment⟩], s.trace ++ [Event.ranUp (i + 1)]⟩
        (fun m' hm' => h m' (by simp [hm']))
      have hK : min T (i + (tl.length + 1)) - i =
          (min T ((i + 1) + tl.length) - (i + 1)) + 1 := by omega
      have hc1 : ¬ (i + 1 ≤ 0) := by omega
      have hc2 : ¬ (i + 1 > T) := by omega
      rw [hK]
      simp only [upLoop, if_neg hc1, if_neg hc2, hup, InsertSchemaVersion]
      rw [hrec]
      simp only [List.take_succ_cons, upRecs_cons, List.range'_succ, List.map_cons]
      simp [InsertSchemaVersion, List.append_assoc]

/-- C1: from a fresh database (current version 0), `UpToVersion(T)` on a
valid migration list (every upgrade body succeeds) executes exactly the
upgrade bodies of migrations `1 .. min T (len ms)` in ascending order,
records one upgrade row per executed version, and leaves the current
version read back from the store equal to `min T (len ms)`. -/
theorem c1_upToVersion_from_zero (T : Nat) (ms : List Migration)
    (h : ∀ m ∈ ms, m.up = none) :
    UpToVersion none none T ms ⟨[], []⟩ =
      ({ store := upRecs 0 (ms.take (min T ms.length)),
         trace := (List.range' 1 (min T ms.length)).map Event.ranUp }, none) ∧
    currentVersion (upRecs 0 (ms.take (min T ms.length))) = min T ms.length := by
  constructor
  · have h0 := upLoop_all_ok T ms 0 ⟨[], []⟩ h
    simp only [Nat.zero_add, Nat.sub_zero] at h0
    simpa [UpToVersion, upPairs, currentVersion] using h0
  · rw [currentVersion_upRecs]
    have hlen : (ms.take (min T ms.length)).length = min T ms.length := by
      simp
    rw [hlen]
    by_cases h0 : min T ms.length = 0 <;> simp [h0]

/-- Witness for C1: two migrations, target 5; both are applied and the
current version ends at `min 5 2 = 2`. -/
theorem c1_witness :
    (∀ m ∈ [(⟨"c1", none, none⟩ : Migration), ⟨"c2", none, none⟩], m.up = none) ∧
    UpToVersion none none 5 [⟨"c1", none, none⟩, ⟨"c2", none, none⟩] ⟨[], []⟩ =
      ({ store := upRecs 0 ([(⟨"c1", none, none⟩ : Migration), ⟨"c2", none, none⟩].take
            (min 5 [(⟨"c1", none, none⟩ : Migration), ⟨"c2", none, none⟩].length)),
         trace := (List.range' 1
            (min 5 [(⟨"c1", none, none⟩ : Migration), ⟨"c2", none, none⟩].length)).map
            Event.ranUp }, none) ∧
    currentVersion (upRecs 0 ([(⟨"c1", none, none⟩ : Migration), ⟨"c2", none, none⟩].take
        (min 5 [(⟨"c1", none, none⟩ : Migration), ⟨"c2", none, none⟩].length))) =
      min 5 [(⟨"c1", none, none⟩ : Migration), ⟨"c2", none, none⟩].length :=
  ⟨by decide,
    (c1_upToVersion_from_zero 5 [⟨"c1", none, none⟩, ⟨"c2", none, none⟩] (by decide)).1,
    (c1_upToVersion_from_zero 5 [⟨"c1", none, none⟩, ⟨"c2", none, none⟩] (by decide)).2⟩

/-- Characterization of the upgrade loop from current version 0 when the
bodies up to some version succeed and the next one fails: it executes and
records the succeeding prefix, executes the failing body, records nothing
for it, stops, and returns the formatted error naming the failed version
and the cause. -/
theorem upLoop_first_failure (T : Nat) (mf : Migration) (e : String)
    (hf : mf.up = some e) :
    ∀ (ms1 ms2 : List Migration) (i : Nat) (s : DBState),
    (∀ m ∈ ms1, m.up = none) → i + ms1.length + 1 ≤ T →
    upLoop T 0
        ((List.range' (i + 1) (ms1 ++ mf :: ms2).length).zip (ms1 ++ mf :: ms2)) s =
      ({ store := s.store ++ upRecs i ms1,
         trace := s.trace ++
           (List.range' (i + 1) (ms1.length + 1)).map Event.ranUp },
        some (bodyErrMsg (i + ms1.length + 1) e)) := by
  intro ms1
  induction ms1 with
  | nil =>
    intro ms2 i s _ hT
    have hc1 : ¬ (i + 1 ≤ 0) := by omega
    have hc2 : ¬ (i + 1 > T) := by omega
    simp only [List.nil_append, List.length_cons, List.range'_succ,
      List.zip_cons_cons, upLoop, if_neg hc1, if_neg hc2, hf]
    simp [upRecs, List.range'_succ]
  | cons m tl ih =>
    intro ms2 i s h hT
    have hc1 : ¬ (i + 1 ≤ 0) := by omega
    have hc2 : ¬ (i + 1 > T) := by omega
    have hup : m.up = none := h m (by simp)
    have hrec := ih ms2 (i + 1)
      ⟨s.store ++ [⟨i + 1, true, m.comment⟩], s.trace ++ [Event.ranUp (i + 1)]⟩
      (fun m' hm' => h m' (by simp [hm'])) (by simp at hT ⊢; omega)
    have hidx : (i + 1) + tl.length + 1 = i + (m :: tl).length + 1 := by
      simp; omega
    rw [hidx] at hrec
    rw [List.cons_append, List.length_cons, List.range'_succ, List.zip_cons_cons]
    simp only [upLoop, if_neg hc1, if_neg hc2, hup, InsertSchemaVersion]
    rw [hrec]
    simp only [upRecs_cons, List.length_cons, List.range'_succ, List.map_cons]
    simp [List.append_assoc]

/-- C3: from a fresh database, if during `UpToVersion(T)` the body of the
migration for version `V = |ms1| + 1` fails (`V ≤ T`, earlier bodies
succeed), the call returns the error naming `V` and the cause, executes the
bodies of versions `1 .. V` only (nothing after `V`), records rows only for
versions `1 .. V-1` (none for the failed step), and the version read back
from the store is `V - 1`. -/
theorem c3_up_failure_stops_at_failed_version (T : Nat) (ms1 : List Migration)
    (mf : Migration) (ms2 : List Migration) (e : String)
    (h1 : ∀ m ∈ ms1, m.up = none) (h2 : mf.up = some e)
    (hT : ms1.length + 1 ≤ T) :
    UpToVersion none none T (ms1 ++ mf :: ms2) ⟨[], []⟩ =
      ({ store := upRecs 0 ms1,
         trace := (List.range' 1 (ms1.length + 1)).map Event.ranUp },
        some (bodyErrMsg (ms1.length + 1) e)) ∧
    currentVersion (upRecs 0 ms1) = ms1.length := by
  constructor
  · have h0 := upLoop_first_failure T mf e h2 ms1 ms2 0 ⟨[], []⟩ h1 (by omega)
    simp only [Nat.zero_add] at h0
    simpa [UpToVersion, upPairs, currentVersion] using h0
  · rw [currentVersion_upRecs]
    by_cases h0 : ms1.length = 0 <;> simp [h0]

/-- Witness for C3: three migrations where the second fails (the spec's own
scenario): the error names version 2, version 1 alone is recorded, bodies
1 and 2 ran and body 3 did not. -/
theorem c3_witness :
    (∀ m ∈ [(⟨"c1", none, none⟩ : Migration)], m.up = none) ∧
    (⟨"c2", some "mock error", none⟩ : Migration).up = some "mock error" ∧
    [(⟨"c1", none, none⟩ : Migration)].length + 1 ≤ 3 ∧
    UpToVersion none none 3
        ([⟨"c1", none, none⟩] ++ ⟨"c2", some "mock error", none⟩ :: [⟨"c3", none, none⟩])
        ⟨[], []⟩ =
      ({ store := upRecs 0 [⟨"c1", none, none⟩],
         trace := (List.range' 1 ([(⟨"c1", none, none⟩ : Migration)].length + 1)).map
           Event.ranUp },
        some "error upgrading database to version 2: mock error") ∧
    currentVersion (upRecs 0 [⟨"c1", none, none⟩]) =
      [(⟨"c1", none, none⟩ : Migration)].length := by
  refine ⟨by decide, by decide, by decide, ?_, ?_⟩
  · have := (c3_up_failure_stops_at_failed_version 3 [⟨"c1", none, none⟩]
      ⟨"c2", some "mock error", none⟩ [⟨"c3", none, none⟩] "mock error"
      (by decide) (by decide) (by decide)).1
    simpa using this
  · exact (c3_up_failure_stops_at_failed_version 3 [⟨"c1", none, none⟩]
      ⟨"c2", some "mock error", none⟩ [⟨"c3", none, none⟩] "mock error"
      (by decide) (by decide) (by decide)).2

/-- Invariant of a successful upgrade run: afterwards, every visited pair
is either at or below the version now read back from the store, or beyond
the target; and the read-back version never decreased.  The second
hypothesis is the loop invariant relating the carried `c` to the store
(`c` is the version read at entry; after an insert the store's most recent
version is the version just applied). -/
theorem upLoop_success_bound (T c : Nat) :
    ∀ (ms : List Migration) (i : Nat) (s s1 : DBState),
    upLoop T c ((List.range' (i + 1) ms.length).zip ms) s = (s1, none) →
    (currentVersion s.store = c ∨
      (c < currentVersion s.store ∧ currentVersion s.store < i + 1)) →
    (∀ p ∈ (List.range' (i + 1) ms.length).zip ms,
      p.1 ≤ currentVersion s1.store ∨ T < p.1) ∧
    currentVersion s.store ≤ currentVersion s1.store := by
  intro ms
  induction ms with
  | nil =>
    intro i s s1 h _
    simp only [List.length_nil, List.zip_nil_right, upLoop, Prod.mk.injEq] at h
    rw [← h.1]
    exact ⟨by simp, le_refl _⟩
  | cons m tl ih =>
    intro i s s1 h hinv
    rw [List.length_cons, List.range'_succ, List.zip_cons_cons] at h
    have hcge : c ≤ currentVersion s.store := by
      rcases hinv with h' | h' <;> omega
    by_cases hskip : i + 1 ≤ c
    · simp only [upLoop, if_pos hskip] at h
      have IH := ih (i + 1) s s1 h (by rcases hinv with h' | h' <;> [left; right] <;> omega)
      refine ⟨?_, IH.2⟩
      intro p hp
      rcases List.mem_cons.mp hp with rfl | hp'
      · exact Or.inl (by omega)
      · exact IH.1 p hp'
    · by_cases hbreak : i + 1 > T
      · simp only [upLoop, if_neg hskip, if_pos hbreak, Prod.mk.injEq] at h
        rw [← h.1]
        refine ⟨?_, le_refl _⟩
        intro p hp
        rcases List.mem_cons.mp hp with rfl | hp'
        · exact Or.inr hbreak
        · refine Or.inr ?_
          have := (List.of_mem_zip hp').1
          have := (List.mem_range'_1.mp this).1
          omega
      · cases hup : m.up with
        | some e =>
          simp only [upLoop, if_neg hskip, if_neg hbreak, hup, Prod.mk.injEq] at h
          exact absurd h.2 (by simp)
        | none =>
          simp only [upLoop, if_neg hskip, if_neg hbreak, hup, InsertSchemaVersion] at h
          have hcs' : currentVersion (s.store ++ [⟨i + 1, true, m.comment⟩]) = i + 1 :=
            currentVersion_concat _ _
          have IH := ih (i + 1)
            ⟨s.store ++ [⟨i + 1, true, m.comment⟩], s.trace ++ [Event.ranUp (i + 1)]⟩
            s1 h (Or.inr (by simp only [hcs']; omega))
          have hi1 : i + 1 ≤ currentVersion s1.store := by
            have := IH.2
            simp only [hcs'] at this
            exact this
          refine ⟨?_, by omega⟩
          intro p hp
          rcases List.mem_cons.mp hp with rfl | hp'
          · exact Or.inl hi1
          · exact IH.1 p hp'

/-- C4: running `UpToVersion(T)` twice in a row with no intervening change
is idempotent: if the first run succeeds and produces state `s1`, the
second run returns `(s1, nil)` — it executes no migration body, writes no
row, and leaves the current version unchanged (state, trace and store are
exactly `s1`'s). -/
theorem c4_upToVersion_idempotent (T : Nat) (ms : List Migration) (s s1 : DBState)
    (h : UpToVersion none none T ms s = (s1, none)) :
    UpToVersion none none T ms s1 = (s1, none) := by
  simp only [UpToVersion, upPairs] at h ⊢
  have hb := upLoop_success_bound T (currentVersion s.store) ms 0 s s1 h (Or.inl rfl)
  exact upLoop_noop T (currentVersion s1.store) _ s1 hb.1

/-- Witness for C4: one migration, target 2; the first run applies it, the
second run is a no-op on the resulting state. -/
theorem c4_witness :
    UpToVersion none none 2 [⟨"c", none, none⟩] ⟨[], []⟩ =
      (⟨[⟨1, true, "c"⟩], [Event.ranUp 1]⟩, none) ∧
    UpToVersion none none 2 [⟨"c", none, none⟩] ⟨[⟨1, true, "c"⟩], [Event.ranUp 1]⟩ =
      (⟨[⟨1, true, "c"⟩], [Event.ranUp 1]⟩, none) :=
  ⟨by decide,
    c4_upToVersion_idempotent 2 [⟨"c", none, none⟩] ⟨[], []⟩
      ⟨[⟨1, true, "c"⟩], [Event.ranUp 1]⟩ (by decide)⟩

end Migrate
